import Mathlib

/-! Shallow embedding of the xenminer Ethereum-style RPC facade
(`src/ethapi/eth.py`), with the SQLite store modelled as in-memory lists
of rows.  Machine integers are `Nat`/`Int`; fallible Python code (raised
exceptions) is modelled with `Except String`. -/

deriving instance DecidableEq for Except

namespace EthApi

/-- One row of the `blockchain` table.  `timestamp` is modelled by the
integer epoch-seconds value of the stored textual timestamp; the SQL
`strftime` conversion performed by the out-of-scope store is the identity
on this representation. -/
structure BlockRecord where
  id : Nat
  timestamp : Nat
  block_hash : String
  prev_hash : String
  records_json : String
deriving DecidableEq

/-- One row of the `account_balances` table. -/
structure BalanceEntry where
  account : String
  amount : Int
  block_id : Nat
  currency_type : Nat
deriving DecidableEq

/-- The relational store the facade reads from. -/
structure Store where
  blockchain : List BlockRecord
  account_balances : List BalanceEntry
deriving DecidableEq

/-- A caller-supplied block identifier: a Python `int` or `str`. -/
inductive BlockIdentifier where
  | num : Int → BlockIdentifier
  | str : String → BlockIdentifier
deriving DecidableEq

/-- The `BlockData` dictionary built by `get_block_by_hash`.  `hash` and
`parentHash` are byte lists (`HexBytes`); `parentHash = none` means the key
is absent from the dictionary. -/
structure BlockData where
  number : Int
  timestamp : Nat
  hash : List Nat
  parentHash : Option (List Nat)
deriving DecidableEq

/-- Value of a single hexadecimal digit, case-insensitive. -/
def hexDigitVal? (c : Char) : Option Nat :=
  if '0' ≤ c ∧ c ≤ '9' then some (c.toNat - '0'.toNat)
  else if 'a' ≤ c ∧ c ≤ 'f' then some (c.toNat - 'a'.toNat + 10)
  else if 'A' ≤ c ∧ c ≤ 'F' then some (c.toNat - 'A'.toNat + 10)
  else none

/-- Whether a character is a hexadecimal digit (either case). -/
def isHexDigitChar (c : Char) : Bool :=
  (hexDigitVal? c).isSome

/-- Whether a character is a lowercase hexadecimal digit, the alphabet of
stored digest strings per the data model. -/
def isLowerHexDigit (c : Char) : Bool :=
  decide (('0' ≤ c ∧ c ≤ '9') ∨ ('a' ≤ c ∧ c ≤ 'f'))

/-- Decode pairs of hex digits into bytes, as `bytes.fromhex` does on
prefix-free hex strings (the only shape this development applies it to). -/
def fromhexPairs : List Char → Option (List Nat)
  | [] => some []
  | [_] => none
  | a :: b :: rest =>
    match hexDigitVal? a, hexDigitVal? b, fromhexPairs rest with
    | some hi, some lo, some bs => some ((hi * 16 + lo) :: bs)
    | _, _, _ => none

/-- Model of `HexBytes.fromhex` on prefix-free hex strings. -/
def fromhex (s : String) : Option (List Nat) :=
  fromhexPairs s.data

/-- Model of `eth_utils.is_hex`: the string is non-empty and, after an
optional case-insensitive `0x` marker, consists of hex digits only
(regex `(0x)?[0-9a-f]*` with IGNORECASE, full match, on non-empty input). -/
def is_hex (s : String) : Bool :=
  match s.data with
  | [] => false
  | '0' :: 'x' :: rest => rest.all isHexDigitChar
  | '0' :: 'X' :: rest => rest.all isHexDigitChar
  | cs => cs.all isHexDigitChar

/-- Model of Python `int(s, 16)` restricted to the strings `is_hex`
accepts: strip the optional `0x` marker, fail on an empty digit body
(`ValueError`), otherwise fold the digits in base 16. -/
def pyIntBase16 (s : String) : Option Int :=
  let body : List Char :=
    match s.data with
    | '0' :: 'x' :: rest => rest
    | '0' :: 'X' :: rest => rest
    | cs => cs
  if body = [] ∨ ¬ body.all isHexDigitChar then none
  else some ((body.foldl (fun a c => a * 16 + (hexDigitVal? c).getD 0) 0 : Nat) : Int)

/-- Model of Python `str.replace("0x", "")`: a single left-to-right scan
removing each non-overlapping occurrence of `0x`. -/
def pyReplace0x : List Char → List Char
  | [] => []
  | [c] => [c]
  | a :: b :: rest =>
    if a = '0' ∧ b = 'x' then pyReplace0x rest
    else a :: pyReplace0x (b :: rest)

/-- Whether a character list contains the substring `0x`. -/
def has0x : List Char → Bool
  | [] => false
  | [_] => false
  | a :: b :: rest => (a == '0' && b == 'x') || has0x (b :: rest)

/-- The sanitization `block_hash.replace("0x", "")` applied by
`get_block_by_hash` before querying the store. -/
def sanitize (s : String) : String :=
  ⟨pyReplace0x s.data⟩

/-- One step of the `ORDER BY id DESC LIMIT 1` scan: keep the row with the
larger storage key. -/
def latestStep (acc : Option BlockRecord) (r : BlockRecord) : Option BlockRecord :=
  match acc with
  | none => some r
  | some m => if m.id < r.id then some r else some m

/-- The row returned by `ORDER BY id DESC LIMIT 1`: the row with the
maximum storage key, if any. -/
def latestRow (l : List BlockRecord) : Option BlockRecord :=
  l.foldl latestStep none

/-- Model of `EthApi.block_number`: `SELECT id - 1 ... ORDER BY id DESC LIMIT 1`,
returning 0 when the table is empty. -/
def block_number (s : Store) : Int :=
  match latestRow s.blockchain with
  | none => 0
  | some m => (m.id : Int) - 1

/-- The row fetch `SELECT ... WHERE block_hash = :block_hash` (first row
in scan order). -/
def lookupRecord (s : Store) (h : String) : Option BlockRecord :=
  s.blockchain.find? (fun r => r.block_hash == h)

/-- Shaping of a fetched row into `BlockData`: `number = id - 1`,
epoch-seconds timestamp, byte-decoded hash, and `parentHash` only when
`prev_hash` differs from the genesis sentinel.  A hex-decoding failure
is the propagated `ValueError` of `HexBytes.fromhex`. -/
def mkBlockData (r : BlockRecord) : Except String BlockData :=
  match fromhex r.block_hash with
  | none => .error "ValueError"
  | some hb =>
    if r.prev_hash = "genesis" then
      .ok ⟨(r.id : Int) - 1, r.timestamp, hb, none⟩
    else
      match fromhex r.prev_hash with
      | none => .error "ValueError"
      | some pb => .ok ⟨(r.id : Int) - 1, r.timestamp, hb, some pb⟩

/-- Query-and-shape part of `get_block_by_hash`, after sanitization. -/
def lookupByHash (s : Store) (h : String) : Except String (Option BlockData) :=
  match lookupRecord s h with
  | none => .ok none
  | some r => (mkBlockData r).map some

/-- Model of `EthApi.get_block_by_hash`: falsy input (`None` or the empty string)
short-circuits to `None`; otherwise the input is sanitized and looked up. -/
def get_block_by_hash (s : Store) (block_hash : Option String) :
    Except String (Option BlockData) :=
  match block_hash with
  | none => .ok none
  | some h => if h = "" then .ok none else lookupByHash s (sanitize h)

/-- Model of `EthApi._get_block_hash_by_number`: `"earliest"` becomes 0 and falls
through to the keyed query `WHERE id = block_number + 1`; `"latest"` takes
the `ORDER BY id DESC LIMIT 1` query; any other string reaches the Python
expression `block_number + 1` and raises `TypeError`. -/
def getBlockHashByNumber (s : Store) (bn : BlockIdentifier) :
    Except String (Option String) :=
  match bn with
  | .str h =>
    if h = "earliest" then
      .ok ((s.blockchain.find? (fun r => (r.id : Int) == 0 + 1)).map
        (fun r => r.block_hash))
    else if h = "latest" then
      .ok ((latestRow s.blockchain).map (fun r => r.block_hash))
    else .error "TypeError"
  | .num n =>
    .ok ((s.blockchain.find? (fun r => (r.id : Int) == n + 1)).map
      (fun r => r.block_hash))

/-- The identifier normalization at the top of `eth_get_block_by_number`:
a string accepted by `is_hex` is replaced by `int(s, 16)` (which raises
`ValueError` on a bare `0x` marker); everything else passes unchanged. -/
def normalizeBlockNumber (bn : BlockIdentifier) : Except String BlockIdentifier :=
  match bn with
  | .str h =>
    if is_hex h then
      match pyIntBase16 h with
      | some n => .ok (.num n)
      | none => .error "ValueError"
    else .ok (.str h)
  | .num n => .ok (.num n)

/-- Model of `EthApi.eth_get_block_by_number`: normalize the identifier, resolve it
to a hash, and delegate to `get_block_by_hash`. -/
def eth_get_block_by_number (s : Store) (bn : BlockIdentifier) :
    Except String (Option BlockData) :=
  match normalizeBlockNumber bn with
  | .error e => .error e
  | .ok bn2 =>
    match getBlockHashByNumber s bn2 with
    | .error e => .error e
    | .ok h => get_block_by_hash s h

/-- Model of `EthApi._get_block_number_from_identifier`: `"earliest"` gives 0, a
string accepted by `is_hex` gives its base-16 value, anything else gives
the current head `block_number()`. -/
def getBlockNumberFromIdentifier (s : Store) (bi : BlockIdentifier) :
    Except String Int :=
  match bi with
  | .str h =>
    if h = "earliest" then .ok 0
    else if is_hex h then
      match pyIntBase16 h with
      | some n => .ok n
      | none => .error "ValueError"
    else .ok (block_number s)
  | .num _ => .ok (block_number s)

/-- The rows aggregated by the balance query:
`WHERE account = :address AND block_id <= :block_number AND currency_type = 1`. -/
def balanceRows (s : Store) (address : String) (bn : Int) : List BalanceEntry :=
  s.account_balances.filter
    (fun e => e.account == address && decide ((e.block_id : Int) ≤ bn)
      && e.currency_type == 1)

/-- The aggregate `sum(amount * 10)` over the filtered rows. -/
def balanceTotal (s : Store) (address : String) (bn : Int) : Int :=
  ((balanceRows s address bn).map (fun e => e.amount * 10)).sum

/-- Model of `EthApi.get_balance`, with the returned `HexBytes` quantity modelled by
its integer value: a NULL aggregate (no rows) and a zero aggregate both
take the falsy branch `HexBytes("0x0")`, i.e. 0; a negative total would
make `HexBytes(hex(total))` raise `ValueError`. -/
def get_balance (s : Store) (address : String) (bi : BlockIdentifier) :
    Except String Int :=
  match getBlockNumberFromIdentifier s bi with
  | .error e => .error e
  | .ok bn =>
    let rows := balanceRows s address bn
    if rows.isEmpty then .ok 0
    else
      let total := (rows.map (fun e => e.amount * 10)).sum
      if total = 0 then .ok 0
      else if total < 0 then .error "ValueError"
      else .ok total

/-- A stored digest string as the data model describes it: non-empty,
lowercase hex digits, decodable to bytes. -/
def validHexHash (s : String) : Prop :=
  s ≠ "" ∧ (∀ c ∈ s.data, isLowerHexDigit c = true) ∧ (fromhex s).isSome = true

instance (s : String) : Decidable (validHexHash s) := by
  unfold validHexHash; infer_instance

/-- Store well-formedness guaranteed by the data model: storage keys are a
primary key (pairwise distinct) and stored hash columns are digest strings,
the parent hash possibly being the genesis sentinel instead. -/
def Store.wfChain (s : Store) : Prop :=
  s.blockchain.Pairwise (fun a b => a.id ≠ b.id) ∧
  ∀ r ∈ s.blockchain, validHexHash r.block_hash ∧
    (r.prev_hash = "genesis" ∨ validHexHash r.prev_hash)

instance (s : Store) : Decidable s.wfChain := by
  unfold Store.wfChain; infer_instance

/-- Two-block chain used as concrete test data: the genesis record and one
child, as in the specification's worked scenario. -/
def Swit : Store :=
  ⟨[⟨1, 1000, "aa", "genesis", ""⟩, ⟨2, 1010, "bb", "aa", ""⟩], []⟩

/-- Store with a single block record whose digest is `abc123`. -/
def Swit7 : Store := ⟨[⟨1, 0, "abc123", "genesis", ""⟩], []⟩

/-- Store with one balance movement of 5 recorded at storage key 1. -/
def SB : Store := ⟨[], [⟨"a", 5, 1, 1⟩]⟩

/-- Store with one balance movement of 7 recorded at storage key 3. -/
def SI : Store := ⟨[], [⟨"a", 7, 3, 1⟩]⟩

/-- Store with block records at storage keys 11 and 17. -/
def SN : Store :=
  ⟨[⟨11, 5, "11aa", "genesis", ""⟩, ⟨17, 7, "17bb", "genesis", ""⟩], []⟩

/-- Store whose single record has an interior `0x` in its hash column. -/
def SX : Store := ⟨[⟨1, 0, "ab0xcd", "genesis", ""⟩], []⟩

/-- Store with two balance movements for `z` that cancel to zero. -/
def SZ : Store := ⟨[], [⟨"z", 5, 1, 1⟩, ⟨"z", -5, 1, 1⟩]⟩

/-- A list scan finds exactly the designated element when that element
satisfies the predicate and is the only member doing so. -/
theorem find_unique {α : Type} (l : List α) (p : α → Bool) (r : α)
    (hmem : r ∈ l) (hp : p r = true)
    (huniq : ∀ x ∈ l, p x = true → x = r) :
    l.find? p = some r := by
  induction l with
  | nil => cases hmem
  | cons a t ih =>
    by_cases ha : p a = true
    · have har : a = r := huniq a (List.mem_cons_self a t) ha
      rw [List.find?_cons_of_pos _ ha, har]
    · rw [List.find?_cons_of_neg _ (by simpa using ha)]
      have hne : a ≠ r := fun he => ha (he ▸ hp)
      have hmem' : r ∈ t := by
        cases hmem with
        | head => exact absurd rfl hne
        | tail _ hmt => exact hmt
      exact ih hmem' (fun x hx hpx => huniq x (List.mem_cons_of_mem _ hx) hpx)

/-- In a list whose elements have pairwise distinct keys, two members with
the same key are the same element. -/
theorem pairwise_key_unique {α β : Type} (l : List α) (f : α → β)
    (hp : l.Pairwise (fun a b => f a ≠ f b)) (x y : α)
    (hx : x ∈ l) (hy : y ∈ l) (hxy : f x = f y) : x = y := by
  induction l with
  | nil => cases hx
  | cons a t ih =>
    rw [List.pairwise_cons] at hp
    cases hx with
    | head =>
      cases hy with
      | head => rfl
      | tail _ hy2 => exact absurd hxy (hp.1 y hy2)
    | tail _ hx2 =>
      cases hy with
      | head => exact absurd hxy.symm (hp.1 x hx2)
      | tail _ hy2 => exact ih hp.2 hx2 hy2

/-- Folding `latestStep` from a seed row yields a row of maximal storage
key among the seed and the scanned rows. -/
theorem foldl_latestStep (l : List BlockRecord) (m : BlockRecord) :
    ∃ m', l.foldl latestStep (some m) = some m' ∧ (m' = m ∨ m' ∈ l) ∧
      m.id ≤ m'.id ∧ ∀ x ∈ l, x.id ≤ m'.id := by
  induction l generalizing m with
  | nil => exact ⟨m, rfl, Or.inl rfl, le_refl _, by simp⟩
  | cons a t ih =>
    rw [List.foldl_cons]
    by_cases hlt : m.id < a.id
    · obtain ⟨m', h1, h2, h3, h4⟩ := ih a
      refine ⟨m', ?_, ?_, ?_, ?_⟩
      · simpa [latestStep, hlt] using h1
      · rcases h2 with h2 | h2
        · exact Or.inr (h2 ▸ List.mem_cons_self a t)
        · exact Or.inr (List.mem_cons_of_mem _ h2)
      · exact le_trans (le_of_lt hlt) h3
      · intro x hx
        rcases List.mem_cons.mp hx with hx | hx
        · exact hx ▸ h3
        · exact h4 x hx
    · obtain ⟨m', h1, h2, h3, h4⟩ := ih m
      refine ⟨m', ?_, ?_, h3, ?_⟩
      · simpa [latestStep, hlt] using h1
      · rcases h2 with h2 | h2
        · exact Or.inl h2
        · exact Or.inr (List.mem_cons_of_mem _ h2)
      · intro x hx
        rcases List.mem_cons.mp hx with hx | hx
        · exact hx ▸ le_trans (le_of_not_lt hlt) h3
        · exact h4 x hx

/-- A non-empty scan under `ORDER BY id DESC LIMIT 1` yields a stored row
of maximal storage key. -/
theorem latestRow_spec (l : List BlockRecord) (hne : l ≠ []) :
    ∃ m, latestRow l = some m ∧ m ∈ l ∧ ∀ x ∈ l, x.id ≤ m.id := by
  match l, hne with
  | a :: t, _ =>
    obtain ⟨m', h1, h2, h3, h4⟩ := foldl_latestStep t a
    refine ⟨m', ?_, ?_, ?_⟩
    · simpa [latestRow, List.foldl_cons, latestStep] using h1
    · rcases h2 with h2 | h2
      · exact h2 ▸ List.mem_cons_self a t
      · exact List.mem_cons_of_mem _ h2
    · intro x hx
      rcases List.mem_cons.mp hx with hx | hx
      · exact hx ▸ h3
      · exact h4 x hx

/-- A scan containing no `0x` is left unchanged by the replacement. -/
theorem pyReplace0x_of_no0x (cs : List Char) (h : has0x cs = false) :
    pyReplace0x cs = cs := by
  induction cs using has0x.induct with
  | case1 => rfl
  | case2 c => rfl
  | case3 a b t ih =>
    rw [has0x] at h
    rcases Bool.or_eq_false_iff.mp h with ⟨h1, h2⟩
    have hcond : ¬ (a = '0' ∧ b = 'x') := by
      rintro ⟨ha, hb⟩
      subst ha; subst hb
      simp at h1
    rw [pyReplace0x, if_neg hcond, ih h2]

/-- Replacement scans past a `0x`-free chunk and removes the marker that
follows it. -/
theorem pyReplace0x_append (cs ds : List Char) (h : has0x cs = false) :
    pyReplace0x (cs ++ '0' :: 'x' :: ds) = cs ++ pyReplace0x ds := by
  induction cs using has0x.induct with
  | case1 =>
    rw [List.nil_append, List.nil_append, pyReplace0x, if_pos ⟨rfl, rfl⟩]
  | case2 c =>
    rw [List.cons_append, List.nil_append, pyReplace0x,
      if_neg (by rintro ⟨_, hb⟩; exact absurd hb (by decide)),
      pyReplace0x, if_pos ⟨rfl, rfl⟩, List.cons_append, List.nil_append]
  | case3 a b t ih =>
    rw [has0x] at h
    rcases Bool.or_eq_false_iff.mp h with ⟨h1, h2⟩
    have hcond : ¬ (a = '0' ∧ b = 'x') := by
      rintro ⟨ha, hb⟩
      subst ha; subst hb
      simp at h1
    rw [List.cons_append, List.cons_append, pyReplace0x, if_neg hcond,
      ← List.cons_append, ih h2]
    simp

/-- A character list avoiding the letter `x` contains no `0x`. -/
theorem has0x_eq_false_of_no_x (cs : List Char) (h : ∀ c ∈ cs, c ≠ 'x') :
    has0x cs = false := by
  induction cs using has0x.induct with
  | case1 => rfl
  | case2 c => rfl
  | case3 a b t ih =>
    rw [has0x, Bool.or_eq_false_iff]
    refine ⟨?_, ih (fun c hc => h c (List.mem_cons_of_mem _ hc))⟩
    have hb : b ≠ 'x' := h b (List.mem_cons_of_mem _ (List.mem_cons_self b t))
    simp [hb]

/-- Lowercase hex digits are never the letter `x`. -/
theorem ne_x_of_isLowerHexDigit (c : Char) (h : isLowerHexDigit c = true) :
    c ≠ 'x' := by
  intro he
  subst he
  exact absurd h (by decide)

/-- A string of lowercase hex digits is a fixed point of sanitization. -/
theorem sanitize_of_lower_hex (s : String)
    (h : ∀ c ∈ s.data, isLowerHexDigit c = true) :
    sanitize s = s := by
  show String.mk (pyReplace0x s.data) = s
  rw [pyReplace0x_of_no0x s.data
    (has0x_eq_false_of_no_x s.data (fun c hc => ne_x_of_isLowerHexDigit c (h c hc)))]

/-- Unfolding `get_block_by_hash` on truthy input. -/
theorem get_block_by_hash_some (s : Store) (h : String) (hne : h ≠ "") :
    get_block_by_hash s (some h) = lookupByHash s (sanitize h) := by
  simp [get_block_by_hash, hne]

/-- Unfolding `eth_get_block_by_number` on an integer identifier is the keyed query
`WHERE id = n + 1` followed by the hash lookup. -/
theorem eth_get_block_by_number_num (s : Store) (n : Int) :
    eth_get_block_by_number s (.num n) =
      get_block_by_hash s
        ((s.blockchain.find? (fun r => (r.id : Int) == n + 1)).map
          (fun r => r.block_hash)) := rfl

/-- When identifier resolution succeeds and the scaled aggregate is not
negative, `get_balance` returns exactly that aggregate. -/
theorem get_balance_of_resolved (s : Store) (addr : String)
    (bi : BlockIdentifier) (n : Int)
    (hres : getBlockNumberFromIdentifier s bi = .ok n)
    (hnn : 0 ≤ balanceTotal s addr n) :
    get_balance s addr bi = .ok (balanceTotal s addr n) := by
  unfold get_balance
  rw [hres]
  by_cases hemp : (balanceRows s addr n).isEmpty
  · have hnil : balanceRows s addr n = [] := List.isEmpty_iff.mp hemp
    simp [hemp, balanceTotal, hnil]
  · simp only [hemp, if_false, Bool.false_eq_true]
    by_cases h0 : ((balanceRows s addr n).map (fun e => e.amount * 10)).sum = 0
    · simp [h0, balanceTotal]
    · have hlt : ¬ ((balanceRows s addr n).map (fun e => e.amount * 10)).sum < 0 :=
        not_lt.mpr (by simpa [balanceTotal] using hnn)
      simp [h0, hlt, balanceTotal]

/-- C6: `block_number` on an empty store returns the value 0 — a normal
numeric result, not absent and not an error — and on a non-empty store it
returns the maximum storage key minus one. -/
theorem block_number_empty_zero_max (s : Store) :
    (s.blockchain = [] → block_number s = 0) ∧
    (s.blockchain ≠ [] → ∃ r, r ∈ s.blockchain ∧
      (∀ x ∈ s.blockchain, x.id ≤ r.id) ∧ block_number s = (r.id : Int) - 1) := by
  constructor
  · intro h
    simp [block_number, latestRow, h]
  · intro h
    obtain ⟨m, h1, h2, h3⟩ := latestRow_spec s.blockchain h
    exact ⟨m, h2, h3, by simp [block_number, h1]⟩

/-- Witness for C6 on the empty store and on the two-block chain. -/
theorem block_number_empty_zero_max_witness :
    block_number (⟨[], []⟩ : Store) = 0 ∧
    (Swit.blockchain ≠ [] ∧ ∃ r, r ∈ Swit.blockchain ∧
      (∀ x ∈ Swit.blockchain, x.id ≤ r.id) ∧ block_number Swit = (r.id : Int) - 1) :=
  ⟨(block_number_empty_zero_max ⟨[], []⟩).1 rfl,
   by decide, (block_number_empty_zero_max Swit).2 (by decide)⟩

/-- C9: `get_block_by_hash` returns `None` without error for `None` input,
for empty-string input (for every store, hence with no store query), and
for any input whose sanitized form matches no stored hash. -/
theorem get_block_by_hash_absent_total (s : Store) :
    get_block_by_hash s none = .ok none ∧
    get_block_by_hash s (some "") = .ok none ∧
    ∀ h, (∀ r ∈ s.blockchain, r.block_hash ≠ sanitize h) →
      get_block_by_hash s (some h) = .ok none := by
  refine ⟨rfl, by simp [get_block_by_hash], ?_⟩
  intro h hh
  by_cases h0 : h = ""
  · simp [get_block_by_hash, h0]
  · rw [get_block_by_hash_some s h h0]
    have hnone : lookupRecord s (sanitize h) = none := by
      rw [lookupRecord, List.find?_eq_none]
      intro x hx
      simp only [beq_iff_eq]
      exact hh x hx
    simp [lookupByHash, hnone]

/-- Witness for C9 at an unmatched hash on the two-block chain. -/
theorem get_block_by_hash_absent_total_witness :
    (∀ r ∈ Swit.blockchain, r.block_hash ≠ sanitize "cc") ∧
    get_block_by_hash Swit (some "cc") = .ok none :=
  ⟨by decide, (get_block_by_hash_absent_total Swit).2.2 "cc" (by decide)⟩

/-- C4: in the record returned by `get_block_by_hash`, the `parentHash`
key is absent exactly when the stored `prev_hash` is the genesis sentinel,
and otherwise holds the byte-decoded stored `prev_hash`. -/
theorem get_block_by_hash_parentHash_rule (s : Store) (h : String)
    (r : BlockRecord) (b : BlockData)
    (hres : get_block_by_hash s (some h) = .ok (some b))
    (hrec : lookupRecord s (sanitize h) = some r) :
    (r.prev_hash = "genesis" → b.parentHash = none) ∧
    (r.prev_hash ≠ "genesis" →
      ∃ pb, fromhex r.prev_hash = some pb ∧ b.parentHash = some pb) := by
  by_cases h0 : h = ""
  · rw [h0] at hres
    simp [get_block_by_hash] at hres
  · rw [get_block_by_hash_some s h h0, lookupByHash, hrec] at hres
    cases hfh : fromhex r.block_hash with
    | none =>
      simp [mkBlockData, hfh, Except.map] at hres
    | some hb =>
      by_cases hg : r.prev_hash = "genesis"
      · simp only [mkBlockData, hfh, hg, if_true, reduceIte, Except.map,
          Except.ok.injEq, Option.some.injEq] at hres
        refine ⟨fun _ => ?_, fun hng => absurd hg hng⟩
        rw [← hres]
      · cases hfp : fromhex r.prev_hash with
        | none =>
          simp [mkBlockData, hfh, hg, hfp, Except.map] at hres
        | some pb =>
          simp only [mkBlockData, hfh, hg, hfp, if_false, reduceIte, Except.map,
            Except.ok.injEq, Option.some.injEq] at hres
          exact ⟨fun hg2 => absurd hg2 hg, fun _ => ⟨pb, rfl, by rw [← hres]⟩⟩

/-- Witness for C4 on the child block of the two-block chain. -/
theorem get_block_by_hash_parentHash_rule_witness :
    get_block_by_hash Swit (some "bb") = .ok (some ⟨1, 1010, [187], some [170]⟩) ∧
    lookupRecord Swit (sanitize "bb") = some ⟨2, 1010, "bb", "aa", ""⟩ ∧
    (("aa" : String) = "genesis" → (some [170] : Option (List Nat)) = none) ∧
    (("aa" : String) ≠ "genesis" →
      ∃ pb, fromhex "aa" = some pb ∧ (some [170] : Option (List Nat)) = some pb) :=
  ⟨by decide, by decide,
    (get_block_by_hash_parentHash_rule Swit "bb" ⟨2, 1010, "bb", "aa", ""⟩
      ⟨1, 1010, [187], some [170]⟩ (by decide) (by decide)).1,
    (get_block_by_hash_parentHash_rule Swit "bb" ⟨2, 1010, "bb", "aa", ""⟩
      ⟨1, 1010, [187], some [170]⟩ (by decide) (by decide)).2⟩

/-- C10: a zero-sum aggregate and a null aggregate (no matching rows) are
indistinguishable in the output of `get_balance`: both take the falsy
branch and return the canonical zero quantity. -/
theorem get_balance_zero_indistinct (s s' : Store) (addr addr' : String)
    (bi bi' : BlockIdentifier) (n n' : Int)
    (hres : getBlockNumberFromIdentifier s bi = .ok n)
    (hsum : balanceTotal s addr n = 0)
    (hres' : getBlockNumberFromIdentifier s' bi' = .ok n')
    (hemp : balanceRows s' addr' n' = []) :
    get_balance s addr bi = .ok 0 ∧ get_balance s' addr' bi' = .ok 0 := by
  constructor
  · have hr := get_balance_of_resolved s addr bi n hres (by rw [hsum])
    rw [hsum] at hr
    exact hr
  · have e2 : balanceTotal s' addr' n' = 0 := by simp [balanceTotal, hemp]
    have hr := get_balance_of_resolved s' addr' bi' n' hres' (by rw [e2])
    rw [e2] at hr
    exact hr

/-- Witness for C10: two movements for `z` cancelling to zero, versus an
address with no rows at all, both yield the zero quantity. -/
theorem get_balance_zero_indistinct_witness :
    getBlockNumberFromIdentifier SZ (.str "0x2") = .ok 2 ∧
    balanceTotal SZ "z" 2 = 0 ∧ balanceRows SZ "z" 2 ≠ [] ∧
    balanceRows SZ "w" 2 = [] ∧
    get_balance SZ "z" (.str "0x2") = .ok 0 ∧
    get_balance SZ "w" (.str "0x2") = .ok 0 :=
  ⟨by decide, by decide, by decide, by decide,
    (get_balance_zero_indistinct SZ SZ "z" "w" (.str "0x2") (.str "0x2") 2 2
      (by decide) (by decide) (by decide) (by decide)).1,
    (get_balance_zero_indistinct SZ SZ "z" "w" (.str "0x2") (.str "0x2") 2 2
      (by decide) (by decide) (by decide) (by decide)).2⟩

/-- C7: on stores whose hash column holds non-empty digests, prefixing a
`0x`-free query string with `0x` does not change the result of
`get_block_by_hash`. -/
theorem get_block_by_hash_0x_insensitive (s : Store) (t : String)
    (hwf : ∀ r ∈ s.blockchain, r.block_hash ≠ "")
    (hno : has0x t.data = false) :
    get_block_by_hash s (some ("0x" ++ t)) = get_block_by_hash s (some t) := by
  have hdata : ("0x" ++ t).data = '0' :: 'x' :: t.data := rfl
  have hne2 : ("0x" ++ t) ≠ "" := by
    intro he
    have h2 : ("0x" ++ t).data = [] := by rw [he]
    rw [hdata] at h2
    exact absurd h2 (by simp)
  have hsan : sanitize ("0x" ++ t) = t := by
    show String.mk (pyReplace0x ("0x" ++ t).data) = t
    rw [hdata, pyReplace0x, if_pos ⟨rfl, rfl⟩, pyReplace0x_of_no0x t.data hno]
  rw [get_block_by_hash_some s _ hne2, hsan]
  by_cases h0 : t = ""
  · subst h0
    have hnone : lookupRecord s "" = none := by
      rw [lookupRecord, List.find?_eq_none]
      intro x hx
      simp only [beq_iff_eq]
      exact hwf x hx
    simp [get_block_by_hash, lookupByHash, hnone]
  · rw [get_block_by_hash_some s t h0]
    have hfix : sanitize t = t := by
      show String.mk (pyReplace0x t.data) = t
      rw [pyReplace0x_of_no0x t.data hno]
    rw [hfix]

/-- Witness for C7 on the digest `abc123` of the spec round-trip example. -/
theorem get_block_by_hash_0x_insensitive_witness :
    (∀ r ∈ Swit7.blockchain, r.block_hash ≠ "") ∧
    has0x ("abc123" : String).data = false ∧
    get_block_by_hash Swit7 (some ("0x" ++ "abc123")) =
      get_block_by_hash Swit7 (some "abc123") ∧
    get_block_by_hash Swit7 (some "abc123") =
      .ok (some ⟨0, 0, [171, 193, 35], none⟩) :=
  ⟨by decide, by decide,
    get_block_by_hash_0x_insensitive Swit7 "abc123" (by decide) (by decide),
    by decide⟩

/-- Counterexample for C8 as stated: on input `ab0xcd`, which carries no
leading `0x`, the value matched against the hash column is `abcd`, not the
unchanged `ab0xcd` — an interior `0x` is removed too, so the lookup misses
the stored record whose hash is literally `ab0xcd`. -/
theorem sanitize_leading_only_cex :
    sanitize "ab0xcd" = "abcd" ∧ ("abcd" : String) ≠ "ab0xcd" ∧
    get_block_by_hash SX (some "ab0xcd") = .ok none := by decide

/-- C8 amended: the value matched against the stored hash column is the
input with every non-overlapping occurrence of `0x` removed in one
left-to-right scan, not only a leading prefix. -/
theorem sanitize_strips_all_occurrences (s : Store) (u v : String)
    (hu : has0x u.data = false) (hv : has0x v.data = false) :
    sanitize (u ++ "0x" ++ v) = u ++ v ∧
    get_block_by_hash s (some (u ++ "0x" ++ v)) = lookupByHash s (u ++ v) := by
  have hdata : (u ++ "0x" ++ v).data = u.data ++ '0' :: 'x' :: v.data := by
    show (u.data ++ ['0', 'x']) ++ v.data = u.data ++ '0' :: 'x' :: v.data
    rw [List.append_assoc]
    rfl
  have hsan : sanitize (u ++ "0x" ++ v) = u ++ v := by
    show String.mk (pyReplace0x (u ++ "0x" ++ v).data) = u ++ v
    rw [hdata, pyReplace0x_append u.data v.data hu, pyReplace0x_of_no0x v.data hv]
    rfl
  refine ⟨hsan, ?_⟩
  have hne : (u ++ "0x" ++ v) ≠ "" := by
    intro he
    have h2 : (u ++ "0x" ++ v).data = [] := by rw [he]
    rw [hdata] at h2
    exact absurd h2 (by simp)
  rw [get_block_by_hash_some s _ hne, hsan]

/-- Witness for amended C8 splitting `ab0xcd` around its interior marker. -/
theorem sanitize_strips_all_occurrences_witness :
    has0x ("ab" : String).data = false ∧ has0x ("cd" : String).data = false ∧
    (sanitize ("ab" ++ "0x" ++ "cd") = "ab" ++ "cd" ∧
      get_block_by_hash SX (some ("ab" ++ "0x" ++ "cd")) =
        lookupByHash SX ("ab" ++ "cd")) :=
  ⟨by decide, by decide,
    sanitize_strips_all_occurrences SX "ab" "cd" (by decide) (by decide)⟩

/-- Counterexample for C2 as stated: with a single movement of 5 at
storage key 1, the claim's formula over `blockId <= N + 1` predicts 50 for
`getBalance(a, hex(0))`, but the code filters `block_id <= 0` and returns
the zero quantity. -/
theorem get_balance_offset_cex :
    get_balance SB "a" (.str "0x0") = .ok 0 ∧
    ((SB.account_balances.filter (fun e => e.account == "a" &&
        e.currency_type == 1 && decide ((e.block_id : Int) ≤ 0 + 1))).map
      (fun e => e.amount * 10)).sum = 50 ∧
    ((0 : Int) ≠ 50) := by decide

/-- C2 amended: `get_balance` with a hex identifier parsing to `n` sums
`amount * 10` over entries with `block_id <= n` (no `+ 1` offset), and with
`"earliest"` over entries with `block_id <= 0`. -/
theorem get_balance_sum_rule (s : Store) (addr : String) (h : String) (n : Int)
    (hhex : is_hex h = true) (hp : pyIntBase16 h = some n)
    (hnn : 0 ≤ balanceTotal s addr n) (hnn0 : 0 ≤ balanceTotal s addr 0) :
    get_balance s addr (.str h) = .ok (balanceTotal s addr n) ∧
    get_balance s addr (.str "earliest") = .ok (balanceTotal s addr 0) := by
  have hner : h ≠ "earliest" := by
    intro he
    subst he
    exact absurd hhex (by decide)
  have hres : getBlockNumberFromIdentifier s (.str h) = .ok n := by
    simp [getBlockNumberFromIdentifier, hner, hhex, hp]
  have hres0 : getBlockNumberFromIdentifier s (.str "earliest") = .ok 0 := by
    simp [getBlockNumberFromIdentifier]
  exact ⟨get_balance_of_resolved s addr (.str h) n hres hnn,
    get_balance_of_resolved s addr (.str "earliest") 0 hres0 hnn0⟩

/-- Witness for amended C2: one movement of 5 at storage key 1 is counted
under identifier `0x2` and not under `earliest`. -/
theorem get_balance_sum_rule_witness :
    is_hex "0x2" = true ∧ pyIntBase16 "0x2" = some 2 ∧
    balanceTotal SB "a" 2 = 50 ∧ balanceTotal SB "a" 0 = 0 ∧
    get_balance SB "a" (.str "0x2") = .ok (balanceTotal SB "a" 2) ∧
    get_balance SB "a" (.str "earliest") = .ok (balanceTotal SB "a" 0) :=
  ⟨by decide, by decide, by decide, by decide,
    (get_balance_sum_rule SB "a" "0x2" 2 (by decide) (by decide)
      (by decide) (by decide)).1,
    (get_balance_sum_rule SB "a" "0x2" 2 (by decide) (by decide)
      (by decide) (by decide)).2⟩

/-- Counterexample for C5 as stated: the decimal string `10` does not fall
through to `block_number()` (which is 0 on this store); it is accepted by
`is_hex` and parsed in base 16, resolving to 16, so the movement at
storage key 3 is counted. -/
theorem balance_identifier_cex :
    getBlockNumberFromIdentifier SI (.str "10") = .ok 16 ∧
    block_number SI = 0 ∧ ((16 : Int) ≠ 0) ∧
    get_balance SI "a" (.str "10") = .ok 70 ∧
    get_balance SI "a" (.str "latest") = .ok 0 := by decide

/-- C5 amended: `"earliest"` resolves to 0; any string accepted by
`is_hex` — hex-prefixed or bare hex digits, including decimal-looking
strings — resolves to its base-16 value; only non-hex strings (such as
`"latest"`) and non-string identifiers resolve to `block_number()`. -/
theorem balance_identifier_rule (s : Store) (h : String) (n i : Int) :
    getBlockNumberFromIdentifier s (.str "earliest") = .ok 0 ∧
    (is_hex h = true → pyIntBase16 h = some n →
      getBlockNumberFromIdentifier s (.str h) = .ok n) ∧
    (h ≠ "earliest" → is_hex h = false →
      getBlockNumberFromIdentifier s (.str h) = .ok (block_number s)) ∧
    getBlockNumberFromIdentifier s (.num i) = .ok (block_number s) := by
  refine ⟨by simp [getBlockNumberFromIdentifier], ?_, ?_, rfl⟩
  · intro hhex hp
    have hner : h ≠ "earliest" := by
      intro he
      subst he
      exact absurd hhex (by decide)
    simp [getBlockNumberFromIdentifier, hner, hhex, hp]
  · intro hner hhex
    simp [getBlockNumberFromIdentifier, hner, hhex]

/-- Witness for amended C5 at the tag `latest` and an integer identifier. -/
theorem balance_identifier_rule_witness :
    ("latest" : String) ≠ "earliest" ∧ is_hex "latest" = false ∧
    getBlockNumberFromIdentifier SI (.str "latest") = .ok (block_number SI) ∧
    getBlockNumberFromIdentifier SI (.num 5) = .ok (block_number SI) :=
  ⟨by decide, by decide,
    (balance_identifier_rule SI "latest" 0 5).2.2.1 (by decide) (by decide),
    (balance_identifier_rule SI "latest" 0 5).2.2.2⟩

/-- Counterexample for C3 as stated: the unprefixed decimal string `10` is
not used as-is; it is parsed in base 16, so the lookup lands on the record
at storage key 17 (external 16), not the one the integer 10 selects. -/
theorem eth_number_normalization_cex :
    normalizeBlockNumber (.str "10") = .ok (.num 16) ∧
    eth_get_block_by_number SN (.str "10") = .ok (some ⟨16, 7, [23, 187], none⟩) ∧
    eth_get_block_by_number SN (.num 10) = .ok (some ⟨10, 5, [17, 170], none⟩) ∧
    eth_get_block_by_number SN (.str "10") ≠ eth_get_block_by_number SN (.num 10) := by
  decide

/-- C3 amended: every string accepted by `is_hex` — hex-prefixed or bare
hex digits — is parsed as a base-16 integer (so `"10"` behaves as 16);
only strings rejected by `is_hex`, and non-strings, pass through the
normalization unchanged. -/
theorem eth_number_normalization_rule (s : Store) (h : String) (n i : Int) :
    (is_hex h = true → pyIntBase16 h = some n →
      eth_get_block_by_number s (.str h) = eth_get_block_by_number s (.num n)) ∧
    (is_hex h = false → normalizeBlockNumber (.str h) = .ok (.str h)) ∧
    normalizeBlockNumber (.num i) = .ok (.num i) ∧
    (is_hex "0x10" = true ∧ pyIntBase16 "0x10" = some 16) ∧
    (is_hex "10" = true ∧ pyIntBase16 "10" = some 16) := by
  refine ⟨?_, ?_, rfl, by decide, by decide⟩
  · intro hhex hp
    simp [eth_get_block_by_number, normalizeBlockNumber, hhex, hp]
  · intro hhex
    simp [normalizeBlockNumber, hhex]

/-- Witness for amended C3 at the hex identifier `0xa`. -/
theorem eth_number_normalization_rule_witness :
    is_hex "0xa" = true ∧ pyIntBase16 "0xa" = some 10 ∧
    eth_get_block_by_number Swit (.str "0xa") =
      eth_get_block_by_number Swit (.num 10) :=
  ⟨by decide, by decide,
    (eth_number_normalization_rule Swit "0xa" 10 3).1 (by decide) (by decide)⟩

/-- C1: on a well-formed store with pairwise distinct block hashes, querying
`eth_get_block_by_number` with `k - 1` for a stored record of storage key
`k` returns exactly that record's shape: `number = k - 1`, `hash` the
byte-decoded stored hash, `timestamp` the stored epoch seconds. -/
theorem eth_get_block_by_number_roundtrip (s : Store) (r : BlockRecord) (k : Nat)
    (hwf : s.wfChain)
    (hdist : s.blockchain.Pairwise (fun a b => a.block_hash ≠ b.block_hash))
    (hmem : r ∈ s.blockchain) (hid : r.id = k) (hk : 1 ≤ k) :
    ∃ hb, fromhex r.block_hash = some hb ∧
      ∃ b, eth_get_block_by_number s (.num ((k : Int) - 1)) = .ok (some b) ∧
        b.number = (k : Int) - 1 ∧ b.hash = hb ∧ b.timestamp = r.timestamp := by
  obtain ⟨hpk, hrows⟩ := hwf
  obtain ⟨hne, hlower, hsome⟩ := (hrows r hmem).1
  obtain ⟨hb, hhb⟩ := Option.isSome_iff_exists.mp hsome
  refine ⟨hb, hhb, ?_⟩
  have hfind1 : s.blockchain.find?
      (fun x => (x.id : Int) == ((k : Int) - 1) + 1) = some r := by
    apply find_unique _ _ r hmem
    · simp only [beq_iff_eq, hid]
      omega
    · intro x hx hpx
      simp only [beq_iff_eq] at hpx
      have hxk : x.id = k := by omega
      exact pairwise_key_unique s.blockchain (fun a => a.id) hpk x r hx hmem
        (by show x.id = r.id; rw [hxk, hid])
  rw [eth_get_block_by_number_num, hfind1]
  simp only [Option.map_some']
  rw [get_block_by_hash_some s r.block_hash hne,
    sanitize_of_lower_hex r.block_hash hlower]
  have hfind2 : lookupRecord s r.block_hash = some r := by
    rw [lookupRecord]
    apply find_unique _ _ r hmem
    · simp
    · intro x hx hpx
      simp only [beq_iff_eq] at hpx
      exact pairwise_key_unique s.blockchain (fun a => a.block_hash) hdist x r
        hx hmem hpx
  rw [lookupByHash, hfind2]
  by_cases hg : r.prev_hash = "genesis"
  · refine ⟨⟨(k : Int) - 1, r.timestamp, hb, none⟩, ?_, rfl, rfl, rfl⟩
    simp [mkBlockData, hhb, hg, Except.map, hid]
  · have hvp : validHexHash r.prev_hash := by
      rcases (hrows r hmem).2 with hg2 | hvp
      · exact absurd hg2 hg
      · exact hvp
    obtain ⟨pb, hpb⟩ := Option.isSome_iff_exists.mp hvp.2.2
    refine ⟨⟨(k : Int) - 1, r.timestamp, hb, some pb⟩, ?_, rfl, rfl, rfl⟩
    simp [mkBlockData, hhb, hg, hpb, Except.map, hid]

/-- Witness for C1 querying external number 1 for the child record of the
two-block chain (storage key 2). -/
theorem eth_get_block_by_number_roundtrip_witness :
    Swit.wfChain ∧
    Swit.blockchain.Pairwise (fun a b => a.block_hash ≠ b.block_hash) ∧
    (⟨2, 1010, "bb", "aa", ""⟩ : BlockRecord) ∈ Swit.blockchain ∧
    (∃ hb, fromhex "bb" = some hb ∧
      ∃ b, eth_get_block_by_number Swit (.num (((2 : Nat) : Int) - 1)) = .ok (some b) ∧
        b.number = ((2 : Nat) : Int) - 1 ∧ b.hash = hb ∧ b.timestamp = 1010) :=
  ⟨by decide, by decide, by decide,
    eth_get_block_by_number_roundtrip Swit ⟨2, 1010, "bb", "aa", ""⟩ 2
      (by decide) (by decide) (by decide) rfl (by decide)⟩

end EthApi
